import Mathlib

/-!
Verification of the BOXMEOUT_STELLA prediction-market contracts
(`src/contracts/contracts/boxmeout/src/amm.rs` and `oracle.rs`).

The contracts keep all of their state in a flat keyed store
(`env.storage().persistent()`); we embed that store as association lists
from keys to values, with `mapSet` / `mapRemove` mirroring the host's
`set` / `remove` (overwrite-in-place semantics) and `mapGet?` mirroring
`get`.  Account addresses, market ids and symbols are abstracted as `Nat`;
`u128` / `u32` / `u64` quantities become `Nat` (all the operations proved
about stay far below the 128-bit range, and Rust's checked arithmetic
never wraps on the traced paths).  Authentication (`require_auth`), token
transfers and event emission are external effects with no bearing on the
contract state transitions and are not modelled, following the spec's
treatment of them as opaque capabilities.
-/

namespace Boxmeout

/-- Lookup in a keyed store (the host's `storage.get`): value at the first
occurrence of the key, if any. -/
def mapGet? {κ α : Type} [DecidableEq κ] : List (κ × α) → κ → Option α
  | [], _ => none
  | (k, v) :: t, a => if k = a then some v else mapGet? t a

/-- Write to a keyed store (the host's `storage.set`): overwrite the first
occurrence of the key, or append a fresh entry. -/
def mapSet {κ α : Type} [DecidableEq κ] : List (κ × α) → κ → α → List (κ × α)
  | [], a, v => [(a, v)]
  | (k, w) :: t, a, v => if k = a then (a, v) :: t else (k, w) :: mapSet t a v

/-- Delete from a keyed store (the host's `storage.remove`). -/
def mapRemove {κ α : Type} [DecidableEq κ] : List (κ × α) → κ → List (κ × α)
  | [], _ => []
  | (k, w) :: t, a => if k = a then t else (k, w) :: mapRemove t a

/-- Lookup with a default (the source's `get(..).unwrap_or(d)`). -/
def mapGetD {κ α : Type} [DecidableEq κ] (l : List (κ × α)) (a : κ) (d : α) : α :=
  (mapGet? l a).getD d

/-- Sum of all values of a `Nat`-valued keyed store. -/
def natSum {κ : Type} (l : List (κ × Nat)) : Nat :=
  (l.map Prod.snd).sum

theorem mapGet?_mapSet {κ α : Type} [DecidableEq κ] (l : List (κ × α)) (a b : κ) (v : α) :
    mapGet? (mapSet l a v) b = if a = b then some v else mapGet? l b := by
  induction l with
  | nil => simp [mapSet, mapGet?]
  | cons h t ih =>
    obtain ⟨k, w⟩ := h
    by_cases hk : k = a
    · subst hk
      by_cases hb : k = b <;> simp [mapSet, mapGet?, hb]
    · by_cases hb : k = b
      · subst hb
        simp [mapSet, mapGet?, hk, Ne.symm hk]
      · simp [mapSet, mapGet?, hk, hb, ih]

theorem mapGetD_mapSet_same {κ α : Type} [DecidableEq κ] (l : List (κ × α)) (a : κ) (v d : α) :
    mapGetD (mapSet l a v) a d = v := by
  unfold mapGetD
  rw [mapGet?_mapSet, if_pos rfl]
  rfl

theorem mapGetD_mapSet_ne {κ α : Type} [DecidableEq κ] (l : List (κ × α)) (a b : κ) (v d : α)
    (h : ¬ a = b) : mapGetD (mapSet l a v) b d = mapGetD l b d := by
  unfold mapGetD
  rw [mapGet?_mapSet, if_neg h]

theorem mapGet?_mapRemove_ne {κ α : Type} [DecidableEq κ]
    (l : List (κ × α)) (a b : κ) (hab : a ≠ b) :
    mapGet? (mapRemove l a) b = mapGet? l b := by
  induction l with
  | nil => simp [mapRemove]
  | cons h t ih =>
    obtain ⟨k, w⟩ := h
    by_cases hk : k = a
    · subst hk
      simp [mapRemove, mapGet?, hab]
    · simp [mapRemove, mapGet?, hk, ih]

theorem mapGet?_eq_none_iff {κ α : Type} [DecidableEq κ] (l : List (κ × α)) (a : κ) :
    mapGet? l a = none ↔ a ∉ l.map Prod.fst := by
  induction l with
  | nil => simp [mapGet?]
  | cons h t ih =>
    obtain ⟨k, w⟩ := h
    by_cases hk : k = a
    · subst hk
      simp [mapGet?]
    · simp [mapGet?, hk, ih, Ne.symm hk]

theorem mapSet_of_not_mem {κ α : Type} [DecidableEq κ]
    (l : List (κ × α)) (a : κ) (v : α) (ha : mapGet? l a = none) :
    mapSet l a v = l ++ [(a, v)] := by
  induction l with
  | nil => simp [mapSet]
  | cons h t ih =>
    obtain ⟨k, w⟩ := h
    by_cases hk : k = a
    · subst hk
      simp [mapGet?] at ha
    · simp [mapGet?, hk] at ha
      simp [mapSet, hk, ih ha]

theorem natSum_mapSet {κ : Type} [DecidableEq κ] (l : List (κ × Nat)) (a : κ) (v : Nat) :
    natSum (mapSet l a v) + mapGetD l a 0 = natSum l + v := by
  induction l with
  | nil => simp [mapSet, natSum, mapGetD, mapGet?]
  | cons h t ih =>
    obtain ⟨k, w⟩ := h
    by_cases hk : k = a
    · subst hk
      simp [mapSet, natSum, mapGetD, mapGet?]
      omega
    · simp only [mapSet, hk, if_false, natSum, List.map_cons, List.sum_cons,
        mapGetD, mapGet?, if_neg hk] at *
      omega

theorem natSum_mapRemove {κ : Type} [DecidableEq κ] (l : List (κ × Nat)) (a : κ) :
    natSum (mapRemove l a) + mapGetD l a 0 = natSum l := by
  induction l with
  | nil => simp [mapRemove, natSum, mapGetD, mapGet?]
  | cons h t ih =>
    obtain ⟨k, w⟩ := h
    by_cases hk : k = a
    · subst hk
      simp [mapRemove, natSum, mapGetD, mapGet?]
      omega
    · simp only [mapRemove, hk, if_false, natSum, List.map_cons, List.sum_cons,
        mapGetD, mapGet?, if_neg hk] at *
      omega

theorem mapGetD_le_natSum {κ : Type} [DecidableEq κ] (l : List (κ × Nat)) (a : κ) :
    mapGetD l a 0 ≤ natSum l := by
  induction l with
  | nil => simp [mapGetD, mapGet?, natSum]
  | cons h t ih =>
    obtain ⟨k, w⟩ := h
    by_cases hk : k = a
    · subst hk
      simp [mapGetD, mapGet?, natSum]
    · simp only [mapGetD, mapGet?, if_neg hk, natSum, List.map_cons, List.sum_cons] at *
      omega

/-! ## AMM Pool Engine (`src/contracts/contracts/boxmeout/src/amm.rs`)

A pool's persistent entries (`pool_yes_reserve`, `pool_no_reserve`,
`pool_k`, `pool_lp_supply`, the per-provider `pool_lp_tokens` entries and
the `pool_exists` flag) are gathered into a `Pool` record; the per-market
AMM state additionally carries the per-(user, outcome) share positions
and the trade counter written by `buy_shares`.  Distinct market ids share
no state, so the embedding is per-market. -/

/-- Per-market liquidity pool state, as stored by `amm.rs`. -/
structure Pool where
  yes_reserve : Nat
  no_reserve : Nat
  k : Nat
  lp_supply : Nat
  lp_balances : List (Nat × Nat)
  deriving Repr, DecidableEq

/-- AMM configuration written by `AMM::initialize`: the trading fee
(basis points, default `20`) and the per-market liquidity cap. -/
structure AmmConfig where
  trading_fee_bps : Nat
  max_liquidity_cap : Nat
  deriving Repr, DecidableEq

/-- Per-market AMM storage: the optional pool (`pool_exists` plus the pool
entries), the per-(user, outcome) share positions, and the trade counter. -/
structure AmmState where
  pool : Option Pool
  user_shares : List ((Nat × Nat) × Nat)
  trade_count : Nat
  deriving Repr, DecidableEq

/-- The reasons every AMM entry point can `panic!`, i.e. abort the call. -/
inductive AmmErr where
  | invalidOutcome
  | amountZero
  | poolNotFound
  | slippageExceeded
  | poolAlreadyExists
  | amountTooSmall
  | maxLiquidityExceeded
  | insufficientLpTokens
  | withdrawalTooSmall
  | drainForbidden
  deriving Repr, DecidableEq

/-- Empty per-market AMM storage: no pool, no share positions, no trades. -/
def amm0 : AmmState := { pool := none, user_shares := [], trade_count := 0 }

/-- Modelled from the spec: the repository's `helpers` module (referenced
by `use crate::helpers::*` in `amm.rs`) is not under `src/`; its
`calculate_shares_out(yes_reserve, no_reserve, outcome, amount_after_fee)`
is modelled from the spec's pricing law: with `Y` the reserve of the
outcome being bought and `X` the other reserve, the payout is
`shares_out = (amount_net * Y) / (X + amount_net)`. -/
def calculate_shares_out (yes_reserve no_reserve outcome amount_after_fee : Nat) : Nat :=
  if outcome = 1 then
    amount_after_fee * yes_reserve / (no_reserve + amount_after_fee)
  else
    amount_after_fee * no_reserve / (yes_reserve + amount_after_fee)

/-- Modelled from the spec: the missing `helpers::set_pool_reserves`
writes both reserves; per the spec's data model, `k` is "recomputed after
every reserve mutation". -/
def set_pool_reserves (p : Pool) (y n : Nat) : Pool :=
  { p with yes_reserve := y, no_reserve := n, k := y * n }

/-- `AMM::create_pool` (amm.rs lines 94-168): requires a positive seed and
no existing pool, splits the seed 50/50 (odd remainder to NO), sets
`k = yes * no`, and mints the whole seed as LP tokens to the creator. -/
def create_pool (s : AmmState) (creator initial_liquidity : Nat) :
    Except AmmErr AmmState :=
  if initial_liquidity = 0 then .error .amountZero
  else if s.pool.isSome then .error .poolAlreadyExists
  else
    let yes_reserve := initial_liquidity / 2
    let no_reserve := initial_liquidity - yes_reserve
    let p : Pool :=
      { yes_reserve := yes_reserve
        no_reserve := no_reserve
        k := yes_reserve * no_reserve
        lp_supply := initial_liquidity
        lp_balances := [(creator, initial_liquidity)] }
    .ok { s with pool := some p }

/-- `AMM::buy_shares` (amm.rs lines 186-271): validates outcome and
amount, requires the pool, takes the fee `amount * fee_bps / 10_000`,
prices the trade with `calculate_shares_out`, enforces the caller's
slippage floor, moves the reserves (purchased side down by `shares_out`,
other side up by the net amount), credits the buyer's share position and
appends a trade record.  Returns `shares_out`. -/
def buy_shares (cfg : AmmConfig) (s : AmmState) (buyer outcome amount min_shares : Nat) :
    Except AmmErr (AmmState × Nat) :=
  if 1 < outcome then .error .invalidOutcome
  else if amount = 0 then .error .amountZero
  else match s.pool with
  | none => .error .poolNotFound
  | some p =>
    let fee := amount * cfg.trading_fee_bps / 10000
    let amount_after_fee := amount - fee
    let shares_out := calculate_shares_out p.yes_reserve p.no_reserve outcome amount_after_fee
    if shares_out < min_shares then .error .slippageExceeded
    else
      let p' :=
        if outcome = 1 then
          set_pool_reserves p (p.yes_reserve - shares_out) (p.no_reserve + amount_after_fee)
        else
          set_pool_reserves p (p.yes_reserve + amount_after_fee) (p.no_reserve - shares_out)
      let current_shares := mapGetD s.user_shares (buyer, outcome) 0
      .ok ({ pool := some p'
             user_shares := mapSet s.user_shares (buyer, outcome) (current_shares + shares_out)
             trade_count := s.trade_count + 1 },
           shares_out)

/-- `AMM::add_liquidity` (amm.rs lines 328-447): requires a positive
amount and an existing pool, mints `amount * lp_supply / (yes + no)` LP
tokens (rejecting a zero mint), splits the deposit in the reserve ratio
(`yes_addition = amount * yes / total`, remainder to NO), rejects if the
new total liquidity exceeds the configured cap, then commits reserves,
`k`, the LP supply and the provider's LP balance. -/
def add_liquidity (cfg : AmmConfig) (s : AmmState) (lp_provider liquidity_amount : Nat) :
    Except AmmErr (AmmState × Nat) :=
  if liquidity_amount = 0 then .error .amountZero
  else match s.pool with
  | none => .error .poolNotFound
  | some p =>
    let total_liquidity := p.yes_reserve + p.no_reserve
    let lp_tokens_to_mint := liquidity_amount * p.lp_supply / total_liquidity
    if lp_tokens_to_mint = 0 then .error .amountTooSmall
    else
      let yes_addition := liquidity_amount * p.yes_reserve / total_liquidity
      let no_addition := liquidity_amount - yes_addition
      let new_yes_reserve := p.yes_reserve + yes_addition
      let new_no_reserve := p.no_reserve + no_addition
      if cfg.max_liquidity_cap < new_yes_reserve + new_no_reserve then
        .error .maxLiquidityExceeded
      else
        let current_lp_balance := mapGetD p.lp_balances lp_provider 0
        let p' : Pool :=
          { yes_reserve := new_yes_reserve
            no_reserve := new_no_reserve
            k := new_yes_reserve * new_no_reserve
            lp_supply := p.lp_supply + lp_tokens_to_mint
            lp_balances := mapSet p.lp_balances lp_provider
              (current_lp_balance + lp_tokens_to_mint) }
        .ok ({ s with pool := some p' }, lp_tokens_to_mint)

/-- `AMM::remove_liquidity` (amm.rs lines 453-572): requires positive LP
tokens, an existing pool and sufficient LP balance, withdraws the
proportional amounts `lp_tokens * reserve / lp_supply` from each side
(rejecting a zero withdrawal on either side and a withdrawal that would
zero either reserve), burns the LP tokens (dropping the balance entry as
it reaches zero) and commits reserves, `k` and the LP supply. -/
def remove_liquidity (s : AmmState) (lp_provider lp_tokens : Nat) :
    Except AmmErr (AmmState × Nat × Nat) :=
  if lp_tokens = 0 then .error .amountZero
  else match s.pool with
  | none => .error .poolNotFound
  | some p =>
    let lp_balance := mapGetD p.lp_balances lp_provider 0
    if lp_balance < lp_tokens then .error .insufficientLpTokens
    else
      let yes_amount := lp_tokens * p.yes_reserve / p.lp_supply
      let no_amount := lp_tokens * p.no_reserve / p.lp_supply
      if yes_amount = 0 ∨ no_amount = 0 then .error .withdrawalTooSmall
      else
        let new_yes_reserve := p.yes_reserve - yes_amount
        let new_no_reserve := p.no_reserve - no_amount
        if new_yes_reserve = 0 ∨ new_no_reserve = 0 then .error .drainForbidden
        else
          let new_lp_balance := lp_balance - lp_tokens
          let balances :=
            if new_lp_balance = 0 then mapRemove p.lp_balances lp_provider
            else mapSet p.lp_balances lp_provider new_lp_balance
          let p' : Pool :=
            { yes_reserve := new_yes_reserve
              no_reserve := new_no_reserve
              k := new_yes_reserve * new_no_reserve
              lp_supply := p.lp_supply - lp_tokens
              lp_balances := balances }
          .ok ({ s with pool := some p' }, yes_amount, no_amount)

/-- One AMM entry point applied to the per-market state. -/
inductive AmmOp where
  | create (creator amount : Nat)
  | buy (buyer outcome amount min_shares : Nat)
  | add (provider amount : Nat)
  | remove (provider lp_tokens : Nat)
  deriving Repr, DecidableEq

/-- Apply one AMM operation; `none` when the call aborts. -/
def applyAmmOp (cfg : AmmConfig) (s : AmmState) : AmmOp → Option AmmState
  | .create c a => (create_pool s c a).toOption
  | .buy b o a m => ((buy_shares cfg s b o a m).toOption).map Prod.fst
  | .add pr a => ((add_liquidity cfg s pr a).toOption).map Prod.fst
  | .remove pr t => ((remove_liquidity s pr t).toOption).map Prod.fst

/-- Run a sequence of AMM operations; `some` exactly when every single
operation succeeds. -/
def runAmmOps (cfg : AmmConfig) (s : AmmState) : List AmmOp → Option AmmState
  | [] => some s
  | op :: ops =>
    match applyAmmOp cfg s op with
    | none => none
    | some s' => runAmmOps cfg s' ops

/-- Both reserves strictly positive whenever the pool exists. -/
def PoolPos (s : AmmState) : Prop :=
  ∀ p, s.pool = some p → 0 < p.yes_reserve ∧ 0 < p.no_reserve

/-- The LP supply equals the sum of all providers' LP balances whenever
the pool exists. -/
def LpInv (s : AmmState) : Prop :=
  ∀ p, s.pool = some p → p.lp_supply = natSum p.lp_balances

/-! ## Oracle Consensus Engine (`src/contracts/contracts/boxmeout/src/oracle.rs`)

The engine's keyed entries — the per-oracle `oracle` registration flags,
the per-market `mkt_res_time`, `attest_yes` and `attest_no` entries, the
per-(market, oracle) `vote` and `attestation` entries and the per-market
`voters` lists — become the fields of `OracleState`.  The per-oracle
display name, accuracy score and registration timestamp are written once
at registration and never read by any traced operation; they are left
out.  The ledger clock enters `submit_attestation` as the `now`
argument. -/

/-- The `Attestation` record stored per (market, oracle). -/
structure Attestation where
  attestor : Nat
  outcome : Nat
  timestamp : Nat
  deriving Repr, DecidableEq

/-- Persistent state of the oracle contract. -/
structure OracleState where
  required_consensus : Nat
  oracle_count : Nat
  oracle_registered : List (Nat × Bool)
  market_res_time : List (Nat × Nat)
  attest_yes : List (Nat × Nat)
  attest_no : List (Nat × Nat)
  votes : List ((Nat × Nat) × Nat)
  attestations : List ((Nat × Nat) × Attestation)
  voters : List (Nat × List Nat)
  deriving Repr, DecidableEq

/-- The reasons the oracle entry points can `panic!`. -/
inductive OracleErr where
  | notRegistered
  | marketNotRegistered
  | tooEarly
  | invalidOutcome
  | duplicateAttestation
  | limitReached
  | alreadyRegistered
  deriving Repr, DecidableEq

/-- `OracleManager::initialize` (oracle.rs lines 30-55): stores the
required consensus threshold and a zero oracle counter; every keyed store
starts empty. -/
def initOracle (required_consensus : Nat) : OracleState :=
  { required_consensus := required_consensus
    oracle_count := 0
    oracle_registered := []
    market_res_time := []
    attest_yes := []
    attest_no := []
    votes := []
    attestations := []
    voters := [] }

/-- `OracleManager::register_oracle` (oracle.rs lines 58-118): rejects
once 10 oracles are registered or if the oracle identity is already
present; otherwise records the registration flag and bumps the counter
(display name, accuracy score and timestamp omitted, see above). -/
def register_oracle (st : OracleState) (oracle : Nat) : Except OracleErr OracleState :=
  if 10 ≤ st.oracle_count then .error .limitReached
  else if (mapGet? st.oracle_registered oracle).isSome then .error .alreadyRegistered
  else .ok { st with
    oracle_registered := mapSet st.oracle_registered oracle true
    oracle_count := st.oracle_count + 1 }

/-- `OracleManager::register_market` (oracle.rs lines 136-162): stores the
market's resolution time and sets both attestation counters to zero; no
other entry is touched. -/
def register_market (st : OracleState) (market_id resolution_time : Nat) : OracleState :=
  { st with
    market_res_time := mapSet st.market_res_time market_id resolution_time
    attest_yes := mapSet st.attest_yes market_id 0
    attest_no := mapSet st.attest_no market_id 0 }

/-- `OracleManager::submit_attestation` (oracle.rs lines 198-290), checks
in source order: oracle registered (`get(..).unwrap_or(false)`), market
registered, `now ≥ resolution_time`, binary outcome, no prior vote by
this oracle for this market.  On success stores the vote and the
`Attestation`, appends the oracle to the market's voter list and bumps
the matching outcome counter. -/
def submit_attestation (st : OracleState) (oracle market_id attestation_result now : Nat) :
    Except OracleErr OracleState :=
  if mapGetD st.oracle_registered oracle false = false then .error .notRegistered
  else match mapGet? st.market_res_time market_id with
  | none => .error .marketNotRegistered
  | some resolution_time =>
    if now < resolution_time then .error .tooEarly
    else if 1 < attestation_result then .error .invalidOutcome
    else if (mapGet? st.votes (market_id, oracle)).isSome then .error .duplicateAttestation
    else
      let att : Attestation :=
        { attestor := oracle, outcome := attestation_result, timestamp := now }
      let voters_m := mapGetD st.voters market_id []
      .ok { st with
        votes := mapSet st.votes (market_id, oracle) attestation_result
        attestations := mapSet st.attestations (market_id, oracle) att
        voters := mapSet st.voters market_id (voters_m ++ [oracle])
        attest_yes :=
          if attestation_result = 1 then
            mapSet st.attest_yes market_id (mapGetD st.attest_yes market_id 0 + 1)
          else st.attest_yes
        attest_no :=
          if attestation_result = 1 then st.attest_no
          else mapSet st.attest_no market_id (mapGetD st.attest_no market_id 0 + 1) }

/-- The YES tally `check_consensus` computes: voters of the market whose
stored vote (`unwrap_or(0)`) equals 1. -/
def yes_votes_of (st : OracleState) (market_id : Nat) : Nat :=
  (mapGetD st.voters market_id []).countP
    (fun o => mapGetD st.votes (market_id, o) 0 == 1)

/-- The NO tally `check_consensus` computes: voters of the market whose
stored vote (`unwrap_or(0)`) differs from 1. -/
def no_votes_of (st : OracleState) (market_id : Nat) : Nat :=
  (mapGetD st.voters market_id []).countP
    (fun o => !(mapGetD st.votes (market_id, o) 0 == 1))

/-- `OracleManager::check_consensus` (oracle.rs lines 293-341): returns
`(false, 0)` when fewer voters than the threshold are recorded; otherwise
tallies the votes and declares outcome X exactly when X's tally meets the
threshold and strictly beats the other (with an explicit tie branch
returning `(false, 0)`). -/
def check_consensus (st : OracleState) (market_id : Nat) : Bool × Nat :=
  if (mapGetD st.voters market_id []).length < st.required_consensus then (false, 0)
  else if st.required_consensus ≤ yes_votes_of st market_id
      ∧ no_votes_of st market_id < yes_votes_of st market_id then (true, 1)
  else if st.required_consensus ≤ no_votes_of st market_id
      ∧ yes_votes_of st market_id < no_votes_of st market_id then (true, 0)
  else if st.required_consensus ≤ yes_votes_of st market_id
      ∧ st.required_consensus ≤ no_votes_of st market_id
      ∧ yes_votes_of st market_id = no_votes_of st market_id then (false, 0)
  else (false, 0)

/-- One oracle entry point applied to the oracle state; `submit` carries
the ledger timestamp at which it executes. -/
inductive OracleOp where
  | regOracle (oracle : Nat)
  | regMarket (market_id resolution_time : Nat)
  | attest (oracle market_id attestation_result now : Nat)
  deriving Repr, DecidableEq

/-- Apply one oracle operation; `none` when the call aborts
(`register_market` never aborts once the contract is live). -/
def applyOracleOp (st : OracleState) : OracleOp → Option OracleState
  | .regOracle o => (register_oracle st o).toOption
  | .regMarket m t => some (register_market st m t)
  | .attest o m r now => (submit_attestation st o m r now).toOption

/-- Run a sequence of oracle operations; `some` exactly when every single
operation succeeds. -/
def runOracleOps (st : OracleState) : List OracleOp → Option OracleState
  | [] => some st
  | op :: ops =>
    match applyOracleOp st op with
    | none => none
    | some st' => runOracleOps st' ops

/-- Number of stored `Attestation` records for the market with the given
outcome. -/
def attested_count (st : OracleState) (market_id x : Nat) : Nat :=
  st.attestations.countP (fun e => e.1.1 == market_id && e.2.outcome == x)

/-- At most one stored attestation per (market, oracle) key. -/
def AtMostOneAttestation (st : OracleState) : Prop :=
  (st.attestations.map Prod.fst).Nodup

/-- A (market, oracle) key holds a vote exactly when it holds an
attestation record. -/
def VoteAttSync (st : OracleState) : Prop :=
  ∀ k, (mapGet? st.votes k).isSome ↔ (mapGet? st.attestations k).isSome

/-- Each market's two attestation counters equal the number of stored
attestations with outcome 1 and outcome 0 respectively. -/
def CountsMatch (st : OracleState) : Prop :=
  ∀ m, mapGetD st.attest_yes m 0 = attested_count st m 1
    ∧ mapGetD st.attest_no m 0 = attested_count st m 0

/-- No stored attestation mentions the market. -/
def NoAttestFor (st : OracleState) (market_id : Nat) : Prop :=
  ∀ e ∈ st.attestations, e.1.1 ≠ market_id

/-- Oracle states reachable from a fresh contract by any sequence of
`register_oracle`, `register_market` and `submit_attestation` calls. -/
inductive OracleReach : OracleState → Prop where
  | init (rc : Nat) : OracleReach (initOracle rc)
  | step (st st' : OracleState) (op : OracleOp) :
      OracleReach st → applyOracleOp st op = some st' → OracleReach st'

/-- Oracle states reachable when `register_market` is only ever applied to
a market with no stored attestations (in particular, at most once per
market after attestations begin). -/
inductive OracleReachFresh : OracleState → Prop where
  | init (rc : Nat) : OracleReachFresh (initOracle rc)
  | regO (st st' : OracleState) (o : Nat) :
      OracleReachFresh st → register_oracle st o = .ok st' → OracleReachFresh st'
  | regM (st : OracleState) (m t : Nat) :
      OracleReachFresh st → NoAttestFor st m → OracleReachFresh (register_market st m t)
  | att (st st' : OracleState) (o m r now : Nat) :
      OracleReachFresh st → submit_attestation st o m r now = .ok st' →
      OracleReachFresh st'

/-! ## Theorems -/

/-- The deployed AMM configuration: trading fee 20 bps (`initialize`
stores `20u32`); the cap is any value large enough not to interfere with
the traced scenarios. -/
def cfg_default : AmmConfig := { trading_fee_bps := 20, max_liquidity_cap := 1000000000 }

/-- C3 (amended): seeding a pool with 1,000 units yields
`yes_reserve = 500, no_reserve = 500`; buying outcome 1 with amount 100
at fee 20 bps computes `fee = 100 * 20 / 10_000 = 0`,
`amount_after_fee = 100`, returns `shares_out = 100*500/(500+100) = 83`,
and leaves `yes_reserve = 500 - 83 = 417`, `no_reserve = 500 + 100 = 600`. -/
theorem buy_scenario_seed_1000 :
    (create_pool amm0 1 1000).map
      (fun s => (s.pool.map Pool.yes_reserve, s.pool.map Pool.no_reserve))
      = .ok (some 500, some 500)
    ∧ ((create_pool amm0 1 1000).bind
        (fun s => buy_shares cfg_default s 2 1 100 0)).map
      (fun r => (r.2, r.1.pool.map Pool.yes_reserve, r.1.pool.map Pool.no_reserve))
      = .ok (83, some 417, some 600) :=
  ⟨rfl, rfl⟩

/-- C3 counterexample: on the freshly seeded 1,000-unit pool, buying
outcome 1 with amount 100 at fee 20 bps does not return 82 shares (it
returns 83: the fee is 0, so the net amount is 100, not 99). -/
theorem buy_scenario_not_82 :
    ((create_pool amm0 1 1000).bind
      (fun s => buy_shares cfg_default s 2 1 100 0)).toOption.map
      (fun r => r.2) ≠ some 82 := by
  decide

/-- C2: `check_consensus` returns `(false, 0)` whenever fewer voters than
the threshold are recorded; once the voter count meets the threshold it
returns `(true, X)` exactly when X's tally meets the threshold and
strictly exceeds the other tally, and a tie with both tallies at or above
the threshold yields `(false, 0)`. -/
theorem check_consensus_quorum_plurality (st : OracleState) (m : Nat) :
    ((mapGetD st.voters m []).length < st.required_consensus →
      check_consensus st m = (false, 0))
    ∧ (st.required_consensus ≤ (mapGetD st.voters m []).length →
      (check_consensus st m = (true, 1) ↔
        st.required_consensus ≤ yes_votes_of st m ∧ no_votes_of st m < yes_votes_of st m)
      ∧ (check_consensus st m = (true, 0) ↔
        st.required_consensus ≤ no_votes_of st m ∧ yes_votes_of st m < no_votes_of st m)
      ∧ (st.required_consensus ≤ yes_votes_of st m →
          st.required_consensus ≤ no_votes_of st m →
          yes_votes_of st m = no_votes_of st m →
          check_consensus st m = (false, 0))) := by
  unfold check_consensus
  constructor
  · intro h
    simp [h]
  · intro h
    rw [if_neg (by omega)]
    split_ifs with h1 h2 h3 <;>
      refine ⟨?_, ?_, ?_⟩ <;>
      simp only [Prod.mk.injEq, and_true, true_and, iff_true, iff_false,
        Bool.true_eq_false, Bool.false_eq_true, false_and, true_iff, false_iff,
        Nat.zero_ne_one, Nat.one_ne_zero, and_false] <;>
      first
        | omega
        | (intros; trivial)

/-- C2 witness: with threshold 2, two YES attestations and one NO
attestation, consensus is reached for outcome 1. -/
theorem check_consensus_quorum_plurality_witness :
    ∃ st, runOracleOps (initOracle 2)
        [.regOracle 1, .regOracle 2, .regOracle 3, .regMarket 9 50,
         .attest 1 9 1 60, .attest 2 9 1 60, .attest 3 9 0 60] = some st
      ∧ check_consensus st 9 = (true, 1) := by
  refine ⟨_, rfl, ?_⟩
  exact ((check_consensus_quorum_plurality _ 9).2 (by decide)).1.mpr (by decide)

/-- C9: `submit_attestation` rejects, in source order, an unregistered
oracle, an unregistered market, a submission before the market's
resolution time, a non-binary outcome, and a repeated submission by the
same oracle — and rejects in exactly these cases (the host rolls back any
aborted call, so a rejection leaves the stored state untouched; the
embedding returns no state on `error`). -/
theorem submit_attestation_error_cases (st : OracleState) (o m r now : Nat) :
    (submit_attestation st o m r now = .error .notRegistered ↔
      mapGetD st.oracle_registered o false = false)
    ∧ (submit_attestation st o m r now = .error .marketNotRegistered ↔
      mapGetD st.oracle_registered o false = true ∧
      mapGet? st.market_res_time m = none)
    ∧ (submit_attestation st o m r now = .error .tooEarly ↔
      mapGetD st.oracle_registered o false = true ∧
      (∃ rt, mapGet? st.market_res_time m = some rt ∧ now < rt))
    ∧ (submit_attestation st o m r now = .error .invalidOutcome ↔
      mapGetD st.oracle_registered o false = true ∧
      (∃ rt, mapGet? st.market_res_time m = some rt ∧ rt ≤ now) ∧ 1 < r)
    ∧ (submit_attestation st o m r now = .error .duplicateAttestation ↔
      mapGetD st.oracle_registered o false = true ∧
      (∃ rt, mapGet? st.market_res_time m = some rt ∧ rt ≤ now) ∧ r ≤ 1 ∧
      (mapGet? st.votes (m, o)).isSome = true)
    ∧ ((∃ st', submit_attestation st o m r now = .ok st') ↔
      mapGetD st.oracle_registered o false = true ∧
      (∃ rt, mapGet? st.market_res_time m = some rt ∧ rt ≤ now) ∧ r ≤ 1 ∧
      (mapGet? st.votes (m, o)).isSome = false) := by
  unfold submit_attestation
  rcases hreg : mapGetD st.oracle_registered o false with _ | _ <;>
    rcases hmk : mapGet? st.market_res_time m with _ | rt <;>
    simp [hreg, hmk] <;>
    split_ifs with h1 h2 h3 <;>
    simp_all [Option.isSome_iff_ne_none]

/-- C9 witness: on a fresh contract a submission by oracle 7 is rejected
because the oracle is not registered. -/
theorem submit_attestation_error_cases_witness :
    submit_attestation (initOracle 1) 7 4 1 0 = .error .notRegistered :=
  (submit_attestation_error_cases (initOracle 1) 7 4 1 0).1.mpr (by decide)

/-- C10: `register_market` rewrites only the market's resolution time and
its two attestation counters; the registration flags, the oracle counter,
the threshold, every stored vote, every `Attestation` record, every voter
list, and every other market's entries are untouched — so an oracle that
attested before a re-registration of the same market id is still rejected
as a duplicate when it submits again (with the standing preconditions:
the oracle is registered, the new resolution time has passed and the
outcome is binary). -/
theorem register_market_frame (st : OracleState) (m t : Nat) :
    (register_market st m t).votes = st.votes
    ∧ (register_market st m t).attestations = st.attestations
    ∧ (register_market st m t).voters = st.voters
    ∧ (register_market st m t).oracle_registered = st.oracle_registered
    ∧ (register_market st m t).oracle_count = st.oracle_count
    ∧ (register_market st m t).required_consensus = st.required_consensus
    ∧ mapGet? (register_market st m t).market_res_time m = some t
    ∧ mapGet? (register_market st m t).attest_yes m = some 0
    ∧ mapGet? (register_market st m t).attest_no m = some 0
    ∧ (∀ m', m' ≠ m →
        mapGet? (register_market st m t).market_res_time m'
          = mapGet? st.market_res_time m'
        ∧ mapGet? (register_market st m t).attest_yes m' = mapGet? st.attest_yes m'
        ∧ mapGet? (register_market st m t).attest_no m' = mapGet? st.attest_no m')
    ∧ (∀ o r now, mapGetD st.oracle_registered o false = true → t ≤ now → r ≤ 1 →
        (mapGet? st.votes (m, o)).isSome →
        submit_attestation (register_market st m t) o m r now
          = .error .duplicateAttestation) := by
  refine ⟨rfl, rfl, rfl, rfl, rfl, rfl, ?_, ?_, ?_, ?_, ?_⟩
  · simp [register_market, mapGet?_mapSet]
  · simp [register_market, mapGet?_mapSet]
  · simp [register_market, mapGet?_mapSet]
  · intro m' hm'
    have hne : ¬ m = m' := fun hc => hm' hc.symm
    simp only [register_market]
    rw [mapGet?_mapSet, mapGet?_mapSet, mapGet?_mapSet, if_neg hne, if_neg hne, if_neg hne]
    exact ⟨rfl, rfl, rfl⟩
  · intro o r now hreg ht hr hvote
    unfold submit_attestation
    simp only [register_market, mapGetD, mapGet?_mapSet]
    simp [mapGetD] at hreg
    simp [hreg, Nat.not_lt.mpr ht, Nat.not_lt.mpr hr, hvote]

/-- C10 witness: oracle 7 attests market 5, the market is re-registered
with the same resolution time, and a second submission by oracle 7 at a
later timestamp is rejected as a duplicate. -/
theorem register_market_frame_witness :
    ∃ st, runOracleOps (initOracle 1)
        [.regOracle 7, .regMarket 5 100, .attest 7 5 1 100] = some st
      ∧ submit_attestation (register_market st 5 100) 7 5 1 120
          = .error .duplicateAttestation := by
  refine ⟨_, rfl, ?_⟩
  exact (register_market_frame _ 5 100).2.2.2.2.2.2.2.2.2.2 7 1 120
    (by decide) (by decide) (by decide) (by decide)

/-- A 1,000-unit 50/50 pool, as `create_pool` seeds it for creator 1. -/
def pool_500 : Pool :=
  { yes_reserve := 500, no_reserve := 500, k := 250000,
    lp_supply := 1000, lp_balances := [(1, 1000)] }

/-- Per-market AMM state holding `pool_500`. -/
def amm_500 : AmmState := { pool := some pool_500, user_shares := [], trade_count := 0 }

theorem fee_lt_amount (amount f : Nat) (ha : 0 < amount) (hf : f < 10000) :
    amount * f / 10000 < amount := by
  rw [Nat.div_lt_iff_lt_mul (by norm_num)]
  exact mul_lt_mul_of_pos_left hf ha

/-- C1: for an existing pool, a binary outcome, a positive amount and a
sub-100% fee rate, `buy_shares` computes `fee = amount * fee_bps / 10_000`
and, with `amount_net = amount - fee`, `Y` the purchased side's reserve
and `X` the other side's reserve, fails with `SlippageExceeded` exactly
when `amount_net * Y / (X + amount_net) < min_shares`; otherwise it
returns exactly that quotient as `shares_out`, decreases the purchased
reserve by `shares_out` and increases the other reserve by `amount_net`. -/
theorem buy_shares_cpmm_pricing (cfg : AmmConfig) (s : AmmState) (p : Pool)
    (buyer outcome amount min_shares fee net X Y so : Nat)
    (hp : s.pool = some p) (ho : outcome ≤ 1) (ha : 0 < amount)
    (hf : cfg.trading_fee_bps < 10000)
    (hfee : fee = amount * cfg.trading_fee_bps / 10000)
    (hnet : net = amount - fee)
    (hY : Y = if outcome = 1 then p.yes_reserve else p.no_reserve)
    (hX : X = if outcome = 1 then p.no_reserve else p.yes_reserve)
    (hso : so = net * Y / (X + net)) :
    (buy_shares cfg s buyer outcome amount min_shares = .error .slippageExceeded ↔
      so < min_shares)
    ∧ (min_shares ≤ so →
        ∃ s' p', buy_shares cfg s buyer outcome amount min_shares = .ok (s', so)
          ∧ s'.pool = some p'
          ∧ so ≤ Y
          ∧ (if outcome = 1 then p'.yes_reserve else p'.no_reserve) = Y - so
          ∧ (if outcome = 1 then p'.no_reserve else p'.yes_reserve) = X + net) := by
  have hfa : fee < amount := hfee ▸ fee_lt_amount amount cfg.trading_fee_bps ha hf
  have hnetpos : 0 < net := by omega
  have hcs : calculate_shares_out p.yes_reserve p.no_reserve outcome net = so := by
    rcases Nat.le_one_iff_eq_zero_or_eq_one.mp ho with h0 | h1
    · subst h0
      simp only [calculate_shares_out, if_neg (by omega : ¬ (0 : Nat) = 1)] at *
      simp [hso, hX, hY]
    · subst h1
      simp only [calculate_shares_out, if_pos rfl] at *
      simp [hso, hX, hY]
  have hsoY : so ≤ Y := by
    subst hso
    apply Nat.div_le_of_le_mul
    apply Nat.mul_le_mul_right
    omega
  have hbuy : buy_shares cfg s buyer outcome amount min_shares =
      (if so < min_shares then .error .slippageExceeded
       else
        let p' := if outcome = 1 then
            set_pool_reserves p (p.yes_reserve - so) (p.no_reserve + net)
          else
            set_pool_reserves p (p.yes_reserve + net) (p.no_reserve - so)
        .ok ({ pool := some p'
               user_shares := mapSet s.user_shares (buyer, outcome)
                 (mapGetD s.user_shares (buyer, outcome) 0 + so)
               trade_count := s.trade_count + 1 }, so)) := by
    unfold buy_shares
    rw [hp]
    dsimp only
    rw [if_neg (show ¬ 1 < outcome by omega), if_neg (show ¬ amount = 0 by omega)]
    rw [← hfee, ← hnet, hcs]
  constructor
  · rw [hbuy]
    split_ifs with hs
    · simp [hs]
    · simp only [Nat.not_lt] at hs
      constructor
      · intro hc
        exact absurd hc (by simp)
      · omega
  · intro hs
    rw [hbuy, if_neg (by omega : ¬ so < min_shares)]
    rcases Nat.le_one_iff_eq_zero_or_eq_one.mp ho with h0 | h1
    · subst h0
      refine ⟨_, _, rfl, rfl, hsoY, ?_, ?_⟩ <;>
        simp [set_pool_reserves, hX, hY]
    · subst h1
      refine ⟨_, _, rfl, rfl, hsoY, ?_, ?_⟩ <;>
        simp [set_pool_reserves, hX, hY]

/-- C1 witness: on the 1,000-unit 50/50 pool at fee 20 bps, buying
outcome 1 with amount 100 and floor 0 succeeds with
`shares_out = 100 * 500 / (500 + 100) = 83`, leaving reserves 417/600. -/
theorem buy_shares_cpmm_pricing_witness :
    ∃ s' p', buy_shares cfg_default amm_500 2 1 100 0 = .ok (s', 83)
      ∧ s'.pool = some p'
      ∧ (83 : Nat) ≤ 500
      ∧ (if (1 : Nat) = 1 then p'.yes_reserve else p'.no_reserve) = 500 - 83
      ∧ (if (1 : Nat) = 1 then p'.no_reserve else p'.yes_reserve) = 500 + 100 :=
  (buy_shares_cpmm_pricing cfg_default amm_500 pool_500 2 1 100 0 0 100 500 500 83
    rfl (by decide) (by decide) (by decide) (by decide) (by decide)
    (by decide) (by decide) (by decide)).2 (by decide)

theorem create_pool_establishes (s s' : AmmState) (c a : Nat)
    (h : create_pool s c a = .ok s') :
    0 < a ∧ s.pool = none ∧ s'.pool = some
      { yes_reserve := a / 2, no_reserve := a - a / 2, k := (a / 2) * (a - a / 2),
        lp_supply := a, lp_balances := [(c, a)] } := by
  unfold create_pool at h
  by_cases h1 : a = 0
  · rw [if_pos h1] at h
    exact absurd h (by simp)
  rw [if_neg h1] at h
  by_cases h2 : s.pool.isSome
  · rw [if_pos h2] at h
    exact absurd h (by simp)
  rw [if_neg h2] at h
  dsimp only at h
  simp only [Except.ok.injEq] at h
  subst h
  refine ⟨by omega, ?_, rfl⟩
  cases hsp : s.pool
  · rfl
  · rw [hsp] at h2
    simp at h2

theorem buy_shares_ok_shape (cfg : AmmConfig) (s s' : AmmState) (b o a ms r : Nat)
    (h : buy_shares cfg s b o a ms = .ok (s', r)) :
    ∃ p, s.pool = some p ∧
      r = calculate_shares_out p.yes_reserve p.no_reserve o
        (a - a * cfg.trading_fee_bps / 10000) ∧
      s'.pool = some (if o = 1 then
        set_pool_reserves p (p.yes_reserve - r)
          (p.no_reserve + (a - a * cfg.trading_fee_bps / 10000))
      else
        set_pool_reserves p (p.yes_reserve + (a - a * cfg.trading_fee_bps / 10000))
          (p.no_reserve - r)) := by
  unfold buy_shares at h
  by_cases h1 : 1 < o
  · rw [if_pos h1] at h
    exact absurd h (by simp)
  rw [if_neg h1] at h
  by_cases h2 : a = 0
  · rw [if_pos h2] at h
    exact absurd h (by simp)
  rw [if_neg h2] at h
  cases hsp : s.pool with
  | none =>
    rw [hsp] at h
    exact absurd h (by simp)
  | some p =>
    rw [hsp] at h
    dsimp only at h
    by_cases h3 : calculate_shares_out p.yes_reserve p.no_reserve o
        (a - a * cfg.trading_fee_bps / 10000) < ms
    · rw [if_pos h3] at h
      exact absurd h (by simp)
    rw [if_neg h3] at h
    simp only [Except.ok.injEq, Prod.mk.injEq] at h
    obtain ⟨hs', hr⟩ := h
    subst hs'
    subst hr
    exact ⟨p, rfl, rfl, rfl⟩

theorem calculate_shares_out_lt (yes no o net : Nat) (hy : 0 < yes) (hn : 0 < no) :
    (o = 1 → calculate_shares_out yes no o net < yes)
    ∧ (o ≠ 1 → calculate_shares_out yes no o net < no) := by
  constructor
  · intro h1
    subst h1
    unfold calculate_shares_out
    rw [if_pos rfl, Nat.div_lt_iff_lt_mul (by omega)]
    calc net * yes = yes * net := Nat.mul_comm _ _
      _ < yes * (no + net) := by
          exact mul_lt_mul_of_pos_left (by omega) hy
  · intro h1
    unfold calculate_shares_out
    rw [if_neg h1, Nat.div_lt_iff_lt_mul (by omega)]
    calc net * no = no * net := Nat.mul_comm _ _
      _ < no * (yes + net) := by
          exact mul_lt_mul_of_pos_left (by omega) hn

theorem buy_shares_preserves_pos (cfg : AmmConfig) (s s' : AmmState) (b o a ms r : Nat)
    (hs : PoolPos s) (h : buy_shares cfg s b o a ms = .ok (s', r)) :
    s'.pool.isSome ∧ PoolPos s' := by
  obtain ⟨p, hsp, hr, hs'⟩ := buy_shares_ok_shape cfg s s' b o a ms r h
  obtain ⟨hy, hn⟩ := hs p hsp
  obtain ⟨hlt1, hlt0⟩ := calculate_shares_out_lt p.yes_reserve p.no_reserve o
    (a - a * cfg.trading_fee_bps / 10000) hy hn
  refine ⟨by rw [hs']; rfl, ?_⟩
  intro q hq
  rw [hs'] at hq
  simp only [Option.some.injEq] at hq
  subst hq
  by_cases h1 : o = 1
  · rw [if_pos h1]
    have := hlt1 h1
    simp only [set_pool_reserves]
    refine ⟨?_, ?_⟩ <;> (dsimp only; omega)
  · rw [if_neg h1]
    have := hlt0 h1
    simp only [set_pool_reserves]
    refine ⟨?_, ?_⟩ <;> (dsimp only; omega)

theorem add_liquidity_ok_shape (cfg : AmmConfig) (s s' : AmmState) (pr a r : Nat)
    (h : add_liquidity cfg s pr a = .ok (s', r)) :
    ∃ p, s.pool = some p ∧
      r = a * p.lp_supply / (p.yes_reserve + p.no_reserve) ∧ 0 < r ∧
      s'.pool = some
        { yes_reserve := p.yes_reserve + a * p.yes_reserve / (p.yes_reserve + p.no_reserve)
          no_reserve := p.no_reserve + (a - a * p.yes_reserve / (p.yes_reserve + p.no_reserve))
          k := (p.yes_reserve + a * p.yes_reserve / (p.yes_reserve + p.no_reserve)) *
            (p.no_reserve + (a - a * p.yes_reserve / (p.yes_reserve + p.no_reserve)))
          lp_supply := p.lp_supply + r
          lp_balances := mapSet p.lp_balances pr (mapGetD p.lp_balances pr 0 + r) } := by
  unfold add_liquidity at h
  by_cases h1 : a = 0
  · rw [if_pos h1] at h
    exact absurd h (by simp)
  rw [if_neg h1] at h
  cases hsp : s.pool with
  | none =>
    rw [hsp] at h
    exact absurd h (by simp)
  | some p =>
    rw [hsp] at h
    dsimp only at h
    by_cases h2 : a * p.lp_supply / (p.yes_reserve + p.no_reserve) = 0
    · rw [if_pos h2] at h
      exact absurd h (by simp)
    rw [if_neg h2] at h
    by_cases h3 : cfg.max_liquidity_cap <
        (p.yes_reserve + a * p.yes_reserve / (p.yes_reserve + p.no_reserve)) +
        (p.no_reserve + (a - a * p.yes_reserve / (p.yes_reserve + p.no_reserve)))
    · rw [if_pos h3] at h
      exact absurd h (by simp)
    rw [if_neg h3] at h
    simp only [Except.ok.injEq, Prod.mk.injEq] at h
    obtain ⟨hs', hr⟩ := h
    subst hs'
    subst hr
    exact ⟨p, rfl, rfl, Nat.pos_of_ne_zero h2, rfl⟩

theorem add_liquidity_preserves_pos (cfg : AmmConfig) (s s' : AmmState) (pr a r : Nat)
    (hs : PoolPos s) (h : add_liquidity cfg s pr a = .ok (s', r)) :
    s'.pool.isSome ∧ PoolPos s' := by
  obtain ⟨p, hsp, _, _, hs'⟩ := add_liquidity_ok_shape cfg s s' pr a r h
  obtain ⟨hy, hn⟩ := hs p hsp
  refine ⟨by rw [hs']; rfl, ?_⟩
  intro q hq
  rw [hs'] at hq
  simp only [Option.some.injEq] at hq
  subst hq
  exact ⟨Nat.lt_of_lt_of_le hy (Nat.le_add_right _ _),
    Nat.lt_of_lt_of_le hn (Nat.le_add_right _ _)⟩

theorem remove_liquidity_ok_shape (s s' : AmmState) (pr t ya na : Nat)
    (h : remove_liquidity s pr t = .ok (s', ya, na)) :
    ∃ p, s.pool = some p ∧ 0 < t ∧ t ≤ mapGetD p.lp_balances pr 0 ∧
      ya = t * p.yes_reserve / p.lp_supply ∧ na = t * p.no_reserve / p.lp_supply ∧
      0 < ya ∧ 0 < na ∧ 0 < p.yes_reserve - ya ∧ 0 < p.no_reserve - na ∧
      s'.pool = some
        { yes_reserve := p.yes_reserve - ya
          no_reserve := p.no_reserve - na
          k := (p.yes_reserve - ya) * (p.no_reserve - na)
          lp_supply := p.lp_supply - t
          lp_balances :=
            if mapGetD p.lp_balances pr 0 - t = 0 then mapRemove p.lp_balances pr
            else mapSet p.lp_balances pr (mapGetD p.lp_balances pr 0 - t) } := by
  unfold remove_liquidity at h
  by_cases h1 : t = 0
  · rw [if_pos h1] at h
    exact absurd h (by simp)
  rw [if_neg h1] at h
  cases hsp : s.pool with
  | none =>
    rw [hsp] at h
    exact absurd h (by simp)
  | some p =>
    rw [hsp] at h
    dsimp only at h
    by_cases h2 : mapGetD p.lp_balances pr 0 < t
    · rw [if_pos h2] at h
      exact absurd h (by simp)
    rw [if_neg h2] at h
    by_cases h3 : t * p.yes_reserve / p.lp_supply = 0 ∨ t * p.no_reserve / p.lp_supply = 0
    · rw [if_pos h3] at h
      exact absurd h (by simp)
    rw [if_neg h3] at h
    by_cases h4 : p.yes_reserve - t * p.yes_reserve / p.lp_supply = 0 ∨
        p.no_reserve - t * p.no_reserve / p.lp_supply = 0
    · rw [if_pos h4] at h
      exact absurd h (by simp)
    rw [if_neg h4] at h
    simp only [Except.ok.injEq, Prod.mk.injEq] at h
    obtain ⟨hs', hya, hna⟩ := h
    subst hs'
    subst hya
    subst hna
    have h3y : t * p.yes_reserve / p.lp_supply ≠ 0 := fun hc => h3 (Or.inl hc)
    have h3n : t * p.no_reserve / p.lp_supply ≠ 0 := fun hc => h3 (Or.inr hc)
    have h4y : p.yes_reserve - t * p.yes_reserve / p.lp_supply ≠ 0 := fun hc => h4 (Or.inl hc)
    have h4n : p.no_reserve - t * p.no_reserve / p.lp_supply ≠ 0 := fun hc => h4 (Or.inr hc)
    exact ⟨p, rfl, Nat.pos_of_ne_zero h1, by omega, rfl, rfl,
      Nat.pos_of_ne_zero h3y, Nat.pos_of_ne_zero h3n,
      Nat.pos_of_ne_zero h4y, Nat.pos_of_ne_zero h4n, rfl⟩

theorem remove_liquidity_preserves_pos (s s' : AmmState) (pr t ya na : Nat)
    (h : remove_liquidity s pr t = .ok (s', ya, na)) :
    s'.pool.isSome ∧ PoolPos s' := by
  obtain ⟨p, _, _, _, _, _, _, _, hy, hn, hs'⟩ := remove_liquidity_ok_shape s s' pr t ya na h
  refine ⟨by rw [hs']; rfl, ?_⟩
  intro q hq
  rw [hs'] at hq
  simp only [Option.some.injEq] at hq
  subst hq
  exact ⟨hy, hn⟩

theorem toOption_map_fst_eq_some {ε α β : Type} (e : Except ε (α × β)) (x : α)
    (h : (e.toOption).map Prod.fst = some x) : ∃ y, e = .ok (x, y) := by
  cases e with
  | error _ => simp [Except.toOption] at h
  | ok v =>
    obtain ⟨v1, v2⟩ := v
    simp [Except.toOption] at h
    subst h
    exact ⟨v2, rfl⟩

theorem toOption_eq_some {ε α : Type} (e : Except ε α) (x : α)
    (h : e.toOption = some x) : e = .ok x := by
  cases e with
  | error _ => simp [Except.toOption] at h
  | ok v =>
    simp [Except.toOption] at h
    subst h
    rfl

theorem runAmmOps_preserves (cfg : AmmConfig) (P : AmmState → Prop)
    (hstep : ∀ s op s', P s → applyAmmOp cfg s op = some s' → P s') :
    ∀ ops s s', P s → runAmmOps cfg s ops = some s' → P s' := by
  intro ops
  induction ops with
  | nil =>
    intro s s' h hrun
    simp only [runAmmOps, Option.some.injEq] at hrun
    subst hrun
    exact h
  | cons op ops ih =>
    intro s s' h hrun
    unfold runAmmOps at hrun
    cases happ : applyAmmOp cfg s op with
    | none =>
      rw [happ] at hrun
      simp at hrun
    | some s1 =>
      rw [happ] at hrun
      exact ih s1 s' (hstep s op s1 h happ) hrun

theorem applyAmmOp_preserves_pos (cfg : AmmConfig) (s : AmmState) (op : AmmOp)
    (s' : AmmState) (h : s.pool.isSome ∧ PoolPos s)
    (happ : applyAmmOp cfg s op = some s') : s'.pool.isSome ∧ PoolPos s' := by
  obtain ⟨hsome, hpos⟩ := h
  cases op with
  | create c a =>
    have hc := toOption_eq_some _ _ happ
    obtain ⟨_, hnone, _⟩ := create_pool_establishes s s' c a hc
    rw [hnone] at hsome
    simp at hsome
  | buy b o a m =>
    obtain ⟨r, hb⟩ := toOption_map_fst_eq_some _ _ happ
    exact buy_shares_preserves_pos cfg s s' b o a m r hpos hb
  | add pr a =>
    obtain ⟨r, hb⟩ := toOption_map_fst_eq_some _ _ happ
    exact add_liquidity_preserves_pos cfg s s' pr a r hpos hb
  | remove pr t =>
    obtain ⟨r, hb⟩ := toOption_map_fst_eq_some _ _ happ
    obtain ⟨ya, na⟩ := r
    exact remove_liquidity_preserves_pos s s' pr t ya na hb

theorem applyAmmOp_preserves_lpinv (cfg : AmmConfig) (s : AmmState) (op : AmmOp)
    (s' : AmmState) (h : LpInv s) (happ : applyAmmOp cfg s op = some s') : LpInv s' := by
  cases op with
  | create c a =>
    have hc := toOption_eq_some _ _ happ
    obtain ⟨_, _, hs'⟩ := create_pool_establishes s s' c a hc
    intro q hq
    rw [hs'] at hq
    simp only [Option.some.injEq] at hq
    subst hq
    simp [natSum]
  | buy b o a m =>
    obtain ⟨r, hb⟩ := toOption_map_fst_eq_some _ _ happ
    obtain ⟨p, hsp, _, hs'⟩ := buy_shares_ok_shape cfg s s' b o a m r hb
    intro q hq
    rw [hs'] at hq
    simp only [Option.some.injEq] at hq
    subst hq
    have := h p hsp
    by_cases h1 : o = 1
    · rw [if_pos h1]
      simpa [set_pool_reserves] using this
    · rw [if_neg h1]
      simpa [set_pool_reserves] using this
  | add pr a =>
    obtain ⟨r, hb⟩ := toOption_map_fst_eq_some _ _ happ
    obtain ⟨p, hsp, _, _, hs'⟩ := add_liquidity_ok_shape cfg s s' pr a r hb
    intro q hq
    rw [hs'] at hq
    simp only [Option.some.injEq] at hq
    subst hq
    have hinv := h p hsp
    have hset := natSum_mapSet p.lp_balances pr (mapGetD p.lp_balances pr 0 + r)
    dsimp only
    omega
  | remove pr t =>
    obtain ⟨r, hb⟩ := toOption_map_fst_eq_some _ _ happ
    obtain ⟨ya, na⟩ := r
    obtain ⟨p, hsp, _, hbal, _, _, _, _, _, _, hs'⟩ :=
      remove_liquidity_ok_shape s s' pr t ya na hb
    intro q hq
    rw [hs'] at hq
    simp only [Option.some.injEq] at hq
    subst hq
    have hinv := h p hsp
    have hle := mapGetD_le_natSum p.lp_balances pr
    dsimp only
    by_cases hz : mapGetD p.lp_balances pr 0 - t = 0
    · rw [if_pos hz]
      have hrem := natSum_mapRemove p.lp_balances pr
      omega
    · rw [if_neg hz]
      have hset := natSum_mapSet p.lp_balances pr (mapGetD p.lp_balances pr 0 - t)
      omega

/-- C4 (amended): `create_pool` with a seed of at least 2 units
establishes strictly positive reserves, and every sequence of successful
`buy_shares`, `add_liquidity` and `remove_liquidity` operations on a
state whose pool exists with positive reserves keeps both reserves
strictly positive (the pool also never disappears). -/
theorem reserves_positive_invariant :
    (∀ s s' c a, 2 ≤ a → create_pool s c a = .ok s' → s'.pool.isSome ∧ PoolPos s')
    ∧ (∀ cfg ops s s', s.pool.isSome ∧ PoolPos s → runAmmOps cfg s ops = some s' →
        s'.pool.isSome ∧ PoolPos s') := by
  constructor
  · intro s s' c a h2 h
    obtain ⟨_, _, hs'⟩ := create_pool_establishes s s' c a h
    refine ⟨by rw [hs']; rfl, ?_⟩
    intro q hq
    rw [hs'] at hq
    simp only [Option.some.injEq] at hq
    subst hq
    constructor <;> (dsimp only; omega)
  · intro cfg ops s s' h hrun
    exact runAmmOps_preserves cfg (fun st => st.pool.isSome ∧ PoolPos st)
      (applyAmmOp_preserves_pos cfg) ops s s' h hrun

/-- C4 counterexample: `create_pool` accepts a seed of 1 unit
(`initial_liquidity > 0` is its only amount check) and creates a pool
with `yes_reserve = 1 / 2 = 0`, so pool creation does not always
establish strictly positive reserves. -/
theorem create_pool_seed_one_zero_yes_reserve :
    ∃ s', create_pool amm0 1 1 = .ok s'
      ∧ ∃ p, s'.pool = some p ∧ p.yes_reserve = 0 ∧ p.no_reserve = 1 := by
  exact ⟨_, rfl, _, rfl, rfl, rfl⟩

/-- C4 witness: the pool seeded with 1,000 units has positive reserves,
and they stay positive through a buy of 100, an added 100 of liquidity
and a removal of 100 LP tokens. -/
theorem reserves_positive_invariant_witness :
    (∃ s1, create_pool amm0 1 1000 = .ok s1 ∧ s1.pool.isSome ∧ PoolPos s1)
    ∧ (∀ s2, runAmmOps cfg_default
          { pool := some pool_500, user_shares := [], trade_count := 0 }
          [.buy 2 1 100 0, .add 3 100, .remove 1 100] = some s2 →
        s2.pool.isSome ∧ PoolPos s2) := by
  constructor
  · exact ⟨amm_500, rfl, reserves_positive_invariant.1 amm0 amm_500 1 1000 (by omega) rfl⟩
  · intro s2 h
    refine reserves_positive_invariant.2 cfg_default _
      { pool := some pool_500, user_shares := [], trade_count := 0 } s2 ⟨rfl, ?_⟩ h
    intro q hq
    simp only [Option.some.injEq] at hq
    subst hq
    exact ⟨by decide, by decide⟩

/-- C5: `create_pool` establishes `lp_total_supply = Σ lp_balance[*]`,
and every sequence of successful AMM operations (`create_pool`,
`buy_shares`, `add_liquidity`, `remove_liquidity`) preserves it. -/
theorem lp_supply_eq_sum_of_balances :
    (∀ s s' c a, create_pool s c a = .ok s' → LpInv s')
    ∧ (∀ cfg ops s s', LpInv s → runAmmOps cfg s ops = some s' → LpInv s') := by
  constructor
  · intro s s' c a h
    obtain ⟨_, _, hs'⟩ := create_pool_establishes s s' c a h
    intro q hq
    rw [hs'] at hq
    simp only [Option.some.injEq] at hq
    subst hq
    simp [natSum]
  · intro cfg ops s s' h hrun
    exact runAmmOps_preserves cfg LpInv (applyAmmOp_preserves_lpinv cfg) ops s s' h hrun

/-- C5 witness: starting from the empty state, creating a 1,000-unit pool
and then buying, adding and removing liquidity keeps the LP supply equal
to the sum of the LP balances. -/
theorem lp_supply_eq_sum_of_balances_witness :
    (∃ s1, create_pool amm0 1 1000 = .ok s1 ∧ LpInv s1)
    ∧ (∀ s2, runAmmOps cfg_default amm0
          [.create 1 1000, .buy 2 1 100 0, .add 3 100, .remove 1 100] = some s2 →
        LpInv s2) := by
  constructor
  · exact ⟨amm_500, rfl, lp_supply_eq_sum_of_balances.1 amm0 amm_500 1 1000 rfl⟩
  · intro s2 h
    refine lp_supply_eq_sum_of_balances.2 cfg_default _ amm0 s2 ?_ h
    intro q hq
    simp [amm0] at hq

theorem div_add_div_le (x y c : Nat) : x / c + y / c ≤ (x + y) / c := by
  rcases Nat.eq_zero_or_pos c with h | h
  · subst h
    simp
  · rw [Nat.le_div_iff_mul_le h, Nat.add_mul]
    exact Nat.add_le_add (Nat.div_mul_le_self x c) (Nat.div_mul_le_self y c)

/-- C7: on an existing pool with a positive total reserve and a positive
deposit, `add_liquidity` mints `amount * lp_total_supply / (yes + no)` LP
tokens; it fails with `AmountTooSmall` when that quotient is zero, fails
with `MaxLiquidityExceeded` when the post-deposit total reserve
`yes + no + amount` exceeds the configured cap, and otherwise succeeds,
splitting the deposit as `yes_addition = amount * yes / total` with the
remainder added to the NO reserve. -/
theorem add_liquidity_spec (cfg : AmmConfig) (s : AmmState) (p : Pool)
    (provider amount : Nat)
    (hp : s.pool = some p) (ha : 0 < amount)
    (hT : 0 < p.yes_reserve + p.no_reserve) :
    (amount * p.lp_supply / (p.yes_reserve + p.no_reserve) = 0 →
      add_liquidity cfg s provider amount = .error .amountTooSmall)
    ∧ (0 < amount * p.lp_supply / (p.yes_reserve + p.no_reserve) →
        cfg.max_liquidity_cap < p.yes_reserve + p.no_reserve + amount →
        add_liquidity cfg s provider amount = .error .maxLiquidityExceeded)
    ∧ (0 < amount * p.lp_supply / (p.yes_reserve + p.no_reserve) →
        p.yes_reserve + p.no_reserve + amount ≤ cfg.max_liquidity_cap →
        ∃ s' p', add_liquidity cfg s provider amount
            = .ok (s', amount * p.lp_supply / (p.yes_reserve + p.no_reserve))
          ∧ s'.pool = some p'
          ∧ p'.yes_reserve = p.yes_reserve +
              amount * p.yes_reserve / (p.yes_reserve + p.no_reserve)
          ∧ p'.no_reserve = p.no_reserve +
              (amount - amount * p.yes_reserve / (p.yes_reserve + p.no_reserve))
          ∧ p'.lp_supply = p.lp_supply +
              amount * p.lp_supply / (p.yes_reserve + p.no_reserve)
          ∧ mapGetD p'.lp_balances provider 0 = mapGetD p.lp_balances provider 0 +
              amount * p.lp_supply / (p.yes_reserve + p.no_reserve)) := by
  have hya : amount * p.yes_reserve / (p.yes_reserve + p.no_reserve) ≤ amount := by
    apply Nat.div_le_of_le_mul
    rw [Nat.mul_comm (p.yes_reserve + p.no_reserve) amount]
    apply Nat.mul_le_mul_left
    omega
  obtain ⟨e, hE⟩ : ∃ e, amount * p.yes_reserve / (p.yes_reserve + p.no_reserve) = e :=
    ⟨_, rfl⟩
  rw [hE] at hya
  refine ⟨?_, ?_, ?_⟩
  · intro hm0
    unfold add_liquidity
    rw [hp]
    dsimp only
    rw [if_neg (show ¬ amount = 0 by omega), if_pos hm0]
  · intro hm hcap
    unfold add_liquidity
    rw [hp]
    dsimp only
    rw [if_neg (show ¬ amount = 0 by omega),
      if_neg (show ¬ amount * p.lp_supply / (p.yes_reserve + p.no_reserve) = 0 by omega),
      hE, if_pos (show cfg.max_liquidity_cap <
        (p.yes_reserve + e) + (p.no_reserve + (amount - e)) by omega)]
  · intro hm hcap
    unfold add_liquidity
    rw [hp]
    dsimp only
    rw [if_neg (show ¬ amount = 0 by omega),
      if_neg (show ¬ amount * p.lp_supply / (p.yes_reserve + p.no_reserve) = 0 by omega),
      hE, if_neg (show ¬ cfg.max_liquidity_cap <
        (p.yes_reserve + e) + (p.no_reserve + (amount - e)) by omega)]
    refine ⟨_, _, rfl, rfl, rfl, rfl, rfl, ?_⟩
    simp [mapGetD, mapGet?_mapSet]

/-- C7 witness: on the 1,000-unit 50/50 pool with cap 10^9, depositing
100 mints `100 * 1000 / 1000 = 100` LP tokens, split 50/50, leaving
reserves 550/550 and LP supply 1100. -/
theorem add_liquidity_spec_witness :
    ∃ s' p', add_liquidity cfg_default amm_500 3 100 = .ok (s', 100)
      ∧ s'.pool = some p'
      ∧ p'.yes_reserve = 550 ∧ p'.no_reserve = 550 ∧ p'.lp_supply = 1100
      ∧ mapGetD p'.lp_balances 3 0 = 100 := by
  obtain ⟨s', p', h1, h2, h3, h4, h5, h6⟩ :=
    (add_liquidity_spec cfg_default amm_500 pool_500 3 100 rfl (by decide)
      (by decide)).2.2 (by decide) (by decide)
  refine ⟨s', p', ?_, h2, ?_, ?_, ?_, ?_⟩ <;> simpa [pool_500, cfg_default] using
    (by assumption : _)

/-- C8: an `add_liquidity` deposit immediately followed by a
`remove_liquidity` of the exact minted LP amount pays out at most the
original deposit (integer rounding only loses value). -/
theorem add_remove_roundtrip_le (cfg : AmmConfig) (s s' s'' : AmmState)
    (provider amount lp_minted ya na : Nat)
    (hadd : add_liquidity cfg s provider amount = .ok (s', lp_minted))
    (hrem : remove_liquidity s' provider lp_minted = .ok (s'', ya, na)) :
    ya + na ≤ amount := by
  obtain ⟨p, hsp, hr, hrpos, hs'⟩ :=
    add_liquidity_ok_shape cfg s s' provider amount lp_minted hadd
  obtain ⟨q, hsq, _, _, hya, hna, _, _, _, _, _⟩ :=
    remove_liquidity_ok_shape s' s'' provider lp_minted ya na hrem
  rw [hs'] at hsq
  simp only [Option.some.injEq] at hsq
  subst hsq
  dsimp only at hya hna
  have he : amount * p.yes_reserve / (p.yes_reserve + p.no_reserve) ≤ amount := by
    apply Nat.div_le_of_le_mul
    rw [Nat.mul_comm (p.yes_reserve + p.no_reserve) amount]
    apply Nat.mul_le_mul_left
    omega
  have hrT : lp_minted * (p.yes_reserve + p.no_reserve) ≤ amount * p.lp_supply := by
    rw [hr]
    exact Nat.div_mul_le_self _ _
  obtain ⟨e, hE⟩ : ∃ e, amount * p.yes_reserve / (p.yes_reserve + p.no_reserve) = e :=
    ⟨_, rfl⟩
  rw [hE] at he hya hna
  have hsum : (p.yes_reserve + e) + (p.no_reserve + (amount - e)) =
      (p.yes_reserve + p.no_reserve) + amount := by omega
  have hstep3 : ya + na ≤ lp_minted * ((p.yes_reserve + p.no_reserve) + amount) /
      (p.lp_supply + lp_minted) := by
    rw [hya, hna]
    calc lp_minted * (p.yes_reserve + e) / (p.lp_supply + lp_minted) +
          lp_minted * (p.no_reserve + (amount - e)) / (p.lp_supply + lp_minted)
        ≤ (lp_minted * (p.yes_reserve + e) +
            lp_minted * (p.no_reserve + (amount - e))) / (p.lp_supply + lp_minted) :=
          div_add_div_le _ _ _
      _ = lp_minted * ((p.yes_reserve + p.no_reserve) + amount) /
            (p.lp_supply + lp_minted) := by
          rw [← Nat.mul_add, hsum]
  have hstep5 : lp_minted * ((p.yes_reserve + p.no_reserve) + amount) ≤
      amount * (p.lp_supply + lp_minted) := by
    calc lp_minted * ((p.yes_reserve + p.no_reserve) + amount)
        = lp_minted * (p.yes_reserve + p.no_reserve) + lp_minted * amount :=
          Nat.mul_add _ _ _
      _ ≤ amount * p.lp_supply + amount * lp_minted :=
          Nat.add_le_add hrT (Nat.le_of_eq (Nat.mul_comm _ _))
      _ = amount * (p.lp_supply + lp_minted) := (Nat.mul_add _ _ _).symm
  have hfinal : lp_minted * ((p.yes_reserve + p.no_reserve) + amount) /
      (p.lp_supply + lp_minted) ≤ amount := by
    calc lp_minted * ((p.yes_reserve + p.no_reserve) + amount) / (p.lp_supply + lp_minted)
        ≤ amount * (p.lp_supply + lp_minted) / (p.lp_supply + lp_minted) :=
          Nat.div_le_div_right hstep5
      _ = amount := Nat.mul_div_left amount (show 0 < p.lp_supply + lp_minted by omega)
  exact le_trans hstep3 hfinal

/-- C8 witness: on the 1,000-unit 50/50 pool, adding 100 mints 100 LP
tokens and removing those 100 LP tokens pays out 50 + 50 = 100 ≤ 100. -/
theorem add_remove_roundtrip_le_witness :
    ∃ s' s'' lp ya na, add_liquidity cfg_default amm_500 3 100 = .ok (s', lp)
      ∧ remove_liquidity s' 3 lp = .ok (s'', ya, na)
      ∧ ya + na ≤ 100 := by
  refine ⟨_, _, 100, 50, 50, rfl, rfl, ?_⟩
  exact add_remove_roundtrip_le cfg_default amm_500 _ _ 3 100 100 50 50 rfl rfl

theorem register_oracle_ok_shape (st st' : OracleState) (o : Nat)
    (h : register_oracle st o = .ok st') :
    st' = { st with
      oracle_registered := mapSet st.oracle_registered o true
      oracle_count := st.oracle_count + 1 } := by
  unfold register_oracle at h
  by_cases h1 : 10 ≤ st.oracle_count
  · rw [if_pos h1] at h
    exact absurd h (by simp)
  rw [if_neg h1] at h
  by_cases h2 : (mapGet? st.oracle_registered o).isSome
  · rw [if_pos h2] at h
    exact absurd h (by simp)
  rw [if_neg h2] at h
  simp only [Except.ok.injEq] at h
  exact h.symm

theorem submit_attestation_ok_shape (st st' : OracleState) (o m r now : Nat)
    (h : submit_attestation st o m r now = .ok st') :
    mapGet? st.votes (m, o) = none ∧ r ≤ 1 ∧
    st' = { st with
      votes := mapSet st.votes (m, o) r
      attestations := mapSet st.attestations (m, o)
        { attestor := o, outcome := r, timestamp := now }
      voters := mapSet st.voters m (mapGetD st.voters m [] ++ [o])
      attest_yes :=
        if r = 1 then mapSet st.attest_yes m (mapGetD st.attest_yes m 0 + 1)
        else st.attest_yes
      attest_no :=
        if r = 1 then st.attest_no
        else mapSet st.attest_no m (mapGetD st.attest_no m 0 + 1) } := by
  unfold submit_attestation at h
  by_cases h1 : mapGetD st.oracle_registered o false = false
  · rw [if_pos h1] at h
    exact absurd h (by simp)
  rw [if_neg h1] at h
  cases hmk : mapGet? st.market_res_time m with
  | none =>
    rw [hmk] at h
    exact absurd h (by simp)
  | some rt =>
    rw [hmk] at h
    dsimp only at h
    by_cases h2 : now < rt
    · rw [if_pos h2] at h
      exact absurd h (by simp)
    rw [if_neg h2] at h
    by_cases h3 : 1 < r
    · rw [if_pos h3] at h
      exact absurd h (by simp)
    rw [if_neg h3] at h
    by_cases h4 : (mapGet? st.votes (m, o)).isSome
    · rw [if_pos h4] at h
      exact absurd h (by simp)
    rw [if_neg h4] at h
    simp only [Except.ok.injEq] at h
    refine ⟨?_, by omega, h.symm⟩
    cases hv : mapGet? st.votes (m, o)
    · rfl
    · rw [hv] at h4
      simp at h4

theorem countP_concat {α : Type} (l : List α) (p : α → Bool) (a : α) :
    (l ++ [a]).countP p = l.countP p + if p a then 1 else 0 := by
  rw [List.countP_append]
  by_cases h : p a <;> simp [List.countP_cons, h]

theorem oracleReach_inv (st : OracleState) (h : OracleReach st) :
    VoteAttSync st ∧ AtMostOneAttestation st := by
  induction h with
  | init rc =>
    constructor
    · intro k
      simp [initOracle, mapGet?]
    · simp [AtMostOneAttestation, initOracle]
  | step st st' op hr happ ih =>
    cases op with
    | regOracle o =>
      have hsh := register_oracle_ok_shape st st' o (toOption_eq_some _ _ happ)
      subst hsh
      exact ih
    | regMarket m t =>
      simp only [applyOracleOp, Option.some.injEq] at happ
      subst happ
      exact ih
    | attest o m r now =>
      obtain ⟨hfresh, _, hsh⟩ :=
        submit_attestation_ok_shape st st' o m r now (toOption_eq_some _ _ happ)
      subst hsh
      have hafresh : mapGet? st.attestations (m, o) = none := by
        cases ha : mapGet? st.attestations (m, o)
        · rfl
        · have := (ih.1 (m, o)).mpr (by rw [ha]; rfl)
          rw [hfresh] at this
          simp at this
      constructor
      · intro k
        show (mapGet? (mapSet st.votes (m, o) r) k).isSome ↔
          (mapGet? (mapSet st.attestations (m, o) _) k).isSome
        rw [mapGet?_mapSet, mapGet?_mapSet]
        by_cases hk : (m, o) = k
        · simp [hk]
        · simp only [if_neg hk]
          exact ih.1 k
      · show (List.map Prod.fst (mapSet st.attestations (m, o) _)).Nodup
        rw [mapSet_of_not_mem _ _ _ hafresh, List.map_append]
        simp only [List.map_cons, List.map_nil]
        rw [List.nodup_append]
        refine ⟨ih.2, List.nodup_singleton _, ?_⟩
        intro k hk hk'
        simp only [List.mem_singleton] at hk'
        subst hk'
        exact absurd ((mapGet?_eq_none_iff _ _).mp hafresh) (fun hc => hc hk)

theorem attested_count_eq_zero_of_no_attest (st : OracleState) (m x : Nat)
    (h : NoAttestFor st m) : attested_count st m x = 0 := by
  unfold attested_count
  rw [List.countP_eq_zero]
  intro e he
  have := h e he
  simp only [Bool.and_eq_true, beq_iff_eq]
  intro hc
  exact this hc.1

theorem oracleReachFresh_inv (st : OracleState) (h : OracleReachFresh st) :
    VoteAttSync st ∧ AtMostOneAttestation st ∧ CountsMatch st := by
  induction h with
  | init rc =>
    refine ⟨?_, ?_, ?_⟩
    · intro k
      simp [initOracle, mapGet?]
    · simp [AtMostOneAttestation, initOracle]
    · intro m
      simp [initOracle, mapGetD, mapGet?, attested_count]
  | regO st st' o hr hok ih =>
    have hsh := register_oracle_ok_shape st st' o hok
    subst hsh
    exact ih
  | regM st m t hr hno ih =>
    refine ⟨ih.1, ih.2.1, ?_⟩
    intro m'
    show mapGetD (mapSet st.attest_yes m 0) m' 0 = attested_count st m' 1
      ∧ mapGetD (mapSet st.attest_no m 0) m' 0 = attested_count st m' 0
    unfold mapGetD
    rw [mapGet?_mapSet, mapGet?_mapSet]
    by_cases hm : m = m'
    · subst hm
      simp only [if_pos rfl, Option.getD_some]
      constructor
      · exact (attested_count_eq_zero_of_no_attest st m 1 hno).symm
      · exact (attested_count_eq_zero_of_no_attest st m 0 hno).symm
    · simp only [if_neg hm]
      exact ih.2.2 m'
  | att st st' o m r now hr hok ih =>
    obtain ⟨hfresh, hr1, hsh⟩ := submit_attestation_ok_shape st st' o m r now hok
    have hafresh : mapGet? st.attestations (m, o) = none := by
      cases ha : mapGet? st.attestations (m, o)
      · rfl
      · have := (ih.1 (m, o)).mpr (by rw [ha]; rfl)
        rw [hfresh] at this
        simp at this
    subst hsh
    have happend : mapSet st.attestations (m, o)
        { attestor := o, outcome := r, timestamp := now }
        = st.attestations ++ [((m, o), { attestor := o, outcome := r, timestamp := now })] :=
      mapSet_of_not_mem _ _ _ hafresh
    refine ⟨?_, ?_, ?_⟩
    · intro k
      show (mapGet? (mapSet st.votes (m, o) r) k).isSome ↔
        (mapGet? (mapSet st.attestations (m, o) _) k).isSome
      rw [mapGet?_mapSet, mapGet?_mapSet]
      by_cases hk : (m, o) = k
      · simp [hk]
      · simp only [if_neg hk]
        exact ih.1 k
    · show (List.map Prod.fst (mapSet st.attestations (m, o) _)).Nodup
      rw [happend, List.map_append]
      simp only [List.map_cons, List.map_nil]
      rw [List.nodup_append]
      refine ⟨ih.2.1, List.nodup_singleton _, ?_⟩
      intro k hk hk'
      simp only [List.mem_singleton] at hk'
      subst hk'
      exact absurd ((mapGet?_eq_none_iff _ _).mp hafresh) (fun hc => hc hk)
    · intro m'
      have hcount : ∀ x, attested_count
          { st with
            votes := mapSet st.votes (m, o) r
            attestations := mapSet st.attestations (m, o)
              { attestor := o, outcome := r, timestamp := now }
            voters := mapSet st.voters m (mapGetD st.voters m [] ++ [o])
            attest_yes :=
              if r = 1 then mapSet st.attest_yes m (mapGetD st.attest_yes m 0 + 1)
              else st.attest_yes
            attest_no :=
              if r = 1 then st.attest_no
              else mapSet st.attest_no m (mapGetD st.attest_no m 0 + 1) } m' x
          = attested_count st m' x +
            if m = m' ∧ r = x then 1 else 0 := by
        intro x
        unfold attested_count
        dsimp only
        rw [happend, countP_concat]
        congr 1
        by_cases hmm : m = m' <;> by_cases hrx : r = x <;>
          simp [hmm, hrx] <;> omega
      constructor
      · rw [hcount 1]
        dsimp only
        by_cases hrr : r = 1
        · rw [if_pos hrr]
          by_cases hmm : m = m'
          · subst hmm
            rw [mapGetD_mapSet_same, if_pos (show m = m ∧ r = 1 from ⟨rfl, hrr⟩)]
            have := (ih.2.2 m).1
            omega
          · rw [mapGetD_mapSet_ne _ _ _ _ _ hmm,
              if_neg (show ¬ (m = m' ∧ r = 1) from fun hc => hmm hc.1)]
            have := (ih.2.2 m').1
            omega
        · rw [if_neg hrr, if_neg (show ¬ (m = m' ∧ r = 1) from fun hc => hrr hc.2)]
          have := (ih.2.2 m').1
          omega
      · rw [hcount 0]
        dsimp only
        by_cases hrr : r = 1
        · rw [if_pos hrr, if_neg (show ¬ (m = m' ∧ r = 0) from fun hc => by omega)]
          have := (ih.2.2 m').2
          omega
        · rw [if_neg hrr]
          by_cases hmm : m = m'
          · subst hmm
            rw [mapGetD_mapSet_same, if_pos (show m = m ∧ r = 0 from ⟨rfl, by omega⟩)]
            have := (ih.2.2 m).2
            omega
          · rw [mapGetD_mapSet_ne _ _ _ _ _ hmm,
              if_neg (show ¬ (m = m' ∧ r = 0) from fun hc => hmm hc.1)]
            have := (ih.2.2 m').2
            omega

/-- C6 (amended): in every reachable state of the oracle engine each
oracle has at most one stored attestation per market (the attestation
store never acquires a duplicate (market, oracle) key), and — provided
`register_market` is only ever applied to a market with no stored
attestations — each market's two counters equal the number of stored
attestations with outcome 1 and outcome 0 respectively.  (Re-registering
a market that already has attestations zeroes its counters without
touching the stored attestations, which breaks the counter equality; see
the counterexample.) -/
theorem attestation_counts_invariant :
    (∀ st, OracleReach st → AtMostOneAttestation st)
    ∧ (∀ st, OracleReachFresh st → CountsMatch st) := by
  constructor
  · intro st h
    exact (oracleReach_inv st h).2
  · intro st h
    exact (oracleReachFresh_inv st h).2.2

/-- C6 counterexample: register an oracle and a market, submit one YES
attestation, then re-register the same market: the YES counter is reset
to 0 while one stored attestation with outcome 1 remains, so the counter
invariant is violated in a reachable state. -/
theorem reregister_market_breaks_counters :
    ∃ st, runOracleOps (initOracle 1)
        [.regOracle 7, .regMarket 5 100, .attest 7 5 1 100, .regMarket 5 100] = some st
      ∧ mapGetD st.attest_yes 5 0 = 0 ∧ attested_count st 5 1 = 1
      ∧ ¬ CountsMatch st := by
  refine ⟨_, rfl, by decide, by decide, ?_⟩
  intro hc
  exact absurd (hc 5).1 (by decide)

/-- The oracle state after registering oracle 7 (only). -/
def orc_st1 : OracleState :=
  { required_consensus := 1, oracle_count := 1,
    oracle_registered := [(7, true)],
    market_res_time := [], attest_yes := [], attest_no := [],
    votes := [], attestations := [], voters := [] }

/-- The oracle state after additionally registering market 5 at
resolution time 100 and receiving one YES attestation from oracle 7. -/
def oracle_example : OracleState :=
  { required_consensus := 1, oracle_count := 1,
    oracle_registered := [(7, true)],
    market_res_time := [(5, 100)],
    attest_yes := [(5, 1)], attest_no := [(5, 0)],
    votes := [((5, 7), 1)],
    attestations := [((5, 7), { attestor := 7, outcome := 1, timestamp := 100 })],
    voters := [(5, [7])] }

/-- C6 witness: the state after registering oracle 7 and market 5 and
submitting one YES attestation is reachable (also under the
fresh-registration discipline), has no duplicate attestation key, and its
counters match the stored attestations. -/
theorem attestation_counts_invariant_witness :
    runOracleOps (initOracle 1)
      [.regOracle 7, .regMarket 5 100, .attest 7 5 1 100] = some oracle_example
    ∧ AtMostOneAttestation oracle_example ∧ CountsMatch oracle_example := by
  have h1 : OracleReachFresh orc_st1 :=
    OracleReachFresh.regO (initOracle 1) orc_st1 7 (.init 1) rfl
  have h2 : OracleReachFresh (register_market orc_st1 5 100) :=
    OracleReachFresh.regM orc_st1 5 100 h1 (fun e he => absurd he (List.not_mem_nil e))
  have h3 : OracleReachFresh oracle_example :=
    OracleReachFresh.att (register_market orc_st1 5 100) oracle_example 7 5 1 100 h2 rfl
  have g1 : OracleReach orc_st1 :=
    .step _ _ (.regOracle 7) (.init 1) rfl
  have g2 : OracleReach (register_market orc_st1 5 100) :=
    .step _ _ (.regMarket 5 100) g1 rfl
  have g3 : OracleReach oracle_example :=
    .step _ _ (.attest 7 5 1 100) g2 rfl
  exact ⟨rfl, attestation_counts_invariant.1 _ g3, attestation_counts_invariant.2 _ h3⟩

end Boxmeout
